import Mathlib

/-!
Verification development for the Personal-Finance-Manager repository.

The Python sources (`expense.py`, `file_manager.py`, `expense_manager.py`)
are shallowly embedded below:

* Python strings are modelled as `List Char` (`Str`).
* Python floats that carry monetary amounts are modelled as `ℚ`;
  `round(x, 2)` becomes `round2` (round half to even at two fractional
  digits, which is what Python's `round` implements on exact values).
* A CSV row is a record of its four named fields; the `Amount` field is
  `Option ℚ`, where `none` models text that `float()` fails to parse.
  The decimal rendering of amounts is abstracted away because Python's
  `str`/`float` round-trip is exact.
* Exceptions become `Option`: a validating constructor returns `none`
  where the Python code raises `ValueError`.
* I/O outcomes (whether a backup copy or a file write succeeds) are
  explicit boolean parameters, and the file system is a small state
  record, so that the error-handling paths of the source are visible.
* `created_at` (a wall-clock timestamp that plays no role in round-trip
  identity or any aggregate) is outside the pure model.
-/

/-- Python strings, modelled as lists of characters. -/
abbrev Str := List Char

/-- The characters Python's `str.strip()` removes: exactly those with
`str.isspace()` true (U+0009-U+000D, U+001C-U+001F, space, NEL, NBSP,
Ogham space mark, U+2000-U+200A, line/paragraph separator, narrow
no-break space, medium mathematical space, ideographic space). -/
def pySpace (c : Char) : Bool :=
  (9 ≤ c.toNat && c.toNat ≤ 13) || (28 ≤ c.toNat && c.toNat ≤ 31) ||
  c.toNat = 32 || c.toNat = 133 || c.toNat = 160 || c.toNat = 0x1680 ||
  (0x2000 ≤ c.toNat && c.toNat ≤ 0x200A) || c.toNat = 0x2028 ||
  c.toNat = 0x2029 || c.toNat = 0x202F || c.toNat = 0x205F || c.toNat = 0x3000

/-- Python's `str.strip()`: drop whitespace from both ends. -/
def pyStrip (s : Str) : Str :=
  ((s.dropWhile pySpace).reverse.dropWhile pySpace).reverse

/-- Python's `str.lower()` (the categories are ASCII). -/
def lowerStr (s : Str) : Str := s.map Char.toLower

/-- Python's `s.startswith(p)`. -/
def startsWithStr : Str → Str → Bool
  | _, [] => true
  | [], _ :: _ => false
  | c :: cs, p :: ps => c = p && startsWithStr cs ps

/-- Numeric value of a digit string (most significant digit first). -/
def digitsToNat (s : Str) : Nat :=
  s.foldl (fun a c => a * 10 + (c.toNat - '0'.toNat)) 0

/-- Split a string on a separator character (like Python's `split`). -/
def splitOnChar (sep : Char) : Str → List Str
  | [] => [[]]
  | c :: cs =>
    let r := splitOnChar sep cs
    if c = sep then [] :: r
    else
      match r with
      | [] => [[c]]
      | h :: t => (c :: h) :: t

/-- Gregorian leap-year rule, as used by `datetime`. -/
def isLeapYear (y : Nat) : Bool :=
  (y % 4 == 0 && y % 100 != 0) || (y % 400 == 0)

/-- Number of days in a month of a given year. -/
def daysInMonth (y m : Nat) : Nat :=
  if m = 2 then (if isLeapYear y then 29 else 28)
  else if m = 4 ∨ m = 6 ∨ m = 9 ∨ m = 11 then 30
  else 31

/-- Embedding of `datetime.datetime.strptime(date_str, "%Y-%m-%d")`
succeeding: three dash-separated digit groups — the year exactly 4
digits (CPython's `%Y` matches `\d\d\d\d`), month and day 1 or 2
digits (`%m`/`%d` accept unpadded values) — naming a real calendar
date with year at least `datetime.MINYEAR = 1`. -/
def validDate (s : Str) : Bool :=
  match splitOnChar '-' s with
  | [ys, ms, ds] =>
    ys.all Char.isDigit && ms.all Char.isDigit && ds.all Char.isDigit &&
    decide (ys.length = 4) &&
    decide (1 ≤ ms.length) && decide (ms.length ≤ 2) &&
    decide (1 ≤ ds.length) && decide (ds.length ≤ 2) &&
    (let y := digitsToNat ys
     let m := digitsToNat ms
     let d := digitsToNat ds
     decide (1 ≤ y) && decide (1 ≤ m) && decide (m ≤ 12) &&
     decide (1 ≤ d) && decide (d ≤ daysInMonth y m))
  | _ => false

/-- Round half to even to the nearest integer (Python's rounding mode). -/
def rhe (q : ℚ) : ℤ :=
  let f := ⌊q⌋
  let r := q - f
  if r < 1/2 then f
  else if 1/2 < r then f + 1
  else if f % 2 = 0 then f else f + 1

/-- Python's `round(x, 2)`. -/
def round2 (q : ℚ) : ℚ := (rhe (q * 100) : ℚ) / 100

/-- `Expense._validate_amount` (expense.py lines 34-42).  The argument
models the outcome of `float(amount)`: `none` when the conversion
raises.  The positivity test happens on the unrounded value and the
stored amount is the rounded one, exactly as in the source. -/
def validate_amount (amount : Option ℚ) : Option ℚ :=
  match amount with
  | none => none
  | some a => if a ≤ 0 then none else some (round2 a)

/-- `Expense.CATEGORIES` (expense.py lines 12-16). -/
def CATEGORIES : List Str :=
  ["Food", "Transport", "Entertainment",
   "Shopping", "Bills", "Healthcare",
   "Education", "Other"].map String.data

/-- `Expense._validate_category` (expense.py lines 44-48): exact
membership test. -/
def validate_category (category : Str) : Option Str :=
  if category ∈ CATEGORIES then some category else none

/-- `Expense._validate_date` (expense.py lines 50-56): the string is
returned unchanged when it parses. -/
def validate_date (date : Str) : Option Str :=
  if validDate date then some date else none

/-- The `Expense` record (expense.py).  `created_at` is omitted: it is
wall-clock state with no role in the verified properties. -/
structure Expense where
  amount : ℚ
  category : Str
  date : Str
  description : Str
deriving DecidableEq, Repr

/-- `Expense.__init__` (expense.py lines 18-32): validate amount, then
category, then date; strip the description.  `none` models a raised
`ValueError`. -/
def mkExpense (amount : Option ℚ) (category : Str) (date : Str)
    (description : Str) : Option Expense := do
  let a ← validate_amount amount
  let c ← validate_category category
  let d ← validate_date date
  pure ⟨a, c, d, pyStrip description⟩

/-- A record satisfying the data-model invariants: positive amount
already rounded to two digits, category in the closed set, parsing
date, stripped description.  Every value `Expense.__init__` produces
from a positive rounded amount satisfies this. -/
def Expense.Valid (e : Expense) : Prop :=
  0 < e.amount ∧ round2 e.amount = e.amount ∧ e.category ∈ CATEGORIES ∧
    validDate e.date = true ∧ pyStrip e.description = e.description

/-- One CSV row of `expenses.csv`, keyed by its header names
(file_manager.py line 88).  `Amount` is `none` when the stored text is
not numeric. -/
structure Row where
  Date : Str
  Category : Str
  Amount : Option ℚ
  Description : Str
deriving DecidableEq, Repr

/-- The row `save_expenses` writes for one expense (file_manager.py
lines 77-84, via `to_dict`, expense.py lines 58-66). -/
def expenseToRow (e : Expense) : Row :=
  ⟨e.date, e.category, some e.amount, e.description⟩

/-- The full list of rows written by `FileManager.save_expenses`. -/
def saveRows (es : List Expense) : List Row := es.map expenseToRow

/-- One iteration of the loading loop (file_manager.py lines 118-129):
attempt `Expense(...)` on the row's fields; `none` means the row is
skipped. -/
def rowToExpense (r : Row) : Option Expense :=
  mkExpense r.Amount r.Category r.Date r.Description

/-- `FileManager.load_expenses` (file_manager.py lines 99-136).  The
argument models the readable content of the storage medium: `none`
when the file is missing or the medium is unreadable (the `except`
path), in which case the empty list accumulated so far is returned;
otherwise each row is constructed and failing rows are skipped. -/
def load_expenses (file : Option (List Row)) : List Expense :=
  match file with
  | none => []
  | some rows => rows.filterMap rowToExpense

/-- The file-system state seen by `FileManager`: the live
`expenses.csv` (if present) and the backup directory contents. -/
structure FS where
  live : Option (List Row)
  backups : List (List Row)
deriving Repr

/-- `FileManager.create_backup` (file_manager.py lines 138-149): when a
live file exists and the copy succeeds, its content is copied into the
backup folder and the backup (identified here by its content) is
returned; when no live file exists, or the copy raises (`copyOk =
false`), it returns `None` and never raises. -/
def create_backup (fs : FS) (copyOk : Bool) : FS × Option (List Row) :=
  match fs.live with
  | some content =>
    if copyOk then ({ fs with backups := fs.backups ++ [content] }, some content)
    else (fs, none)
  | none => (fs, none)

/-- `FileManager.save_expenses` (file_manager.py lines 61-97): back up
first (its result and failure are ignored), then rewrite the whole
file; `writeOk` models whether the write raises.  Returns `true`
exactly when the write succeeded. -/
def save_expenses (fs : FS) (copyOk writeOk : Bool) (es : List Expense) :
    FS × Bool :=
  let fs1 := (create_backup fs copyOk).1
  if writeOk then ({ fs1 with live := some (saveRows es) }, true)
  else (fs1, false)

/-- The `ExpenseManager`'s state: the in-memory collection and the file
system it persists to (expense_manager.py lines 16-21). -/
structure ManagerState where
  expenses : List Expense
  fs : FS

/-- `ExpenseManager.add_expense` (expense_manager.py lines 32-49):
append to the in-memory list, rebuild the report view, persist the
whole collection, and return the persistence outcome. -/
def add_expense (st : ManagerState) (e : Expense) (copyOk writeOk : Bool) :
    ManagerState × Bool :=
  let exps := st.expenses ++ [e]
  let fsOk := save_expenses st.fs copyOk writeOk exps
  ({ expenses := exps, fs := fsOk.1 }, fsOk.2)

/-- `ExpenseManager.clear_all_expenses` (expense_manager.py lines
89-93): empty the list and persist; the persistence outcome is
discarded and the method returns nothing. -/
def clear_all_expenses (st : ManagerState) (copyOk writeOk : Bool) :
    ManagerState :=
  let exps : List Expense := []
  let fsOk := save_expenses st.fs copyOk writeOk exps
  { expenses := exps, fs := fsOk.1 }

/-- The month actually used by `get_monthly_expenses` (expense_manager.py
lines 65-66): `if not month` is Python's falsy test, so both a missing
argument and an empty string select the current month. -/
def effectiveMonth (month : Option Str) (currentMonth : Str) : Str :=
  match month with
  | none => currentMonth
  | some s => if s = [] then currentMonth else s

/-- `ExpenseManager.get_monthly_expenses` (expense_manager.py lines
55-71).  `currentMonth` models `get_current_month()` (wall clock). -/
def get_monthly_expenses (expenses : List Expense) (month : Option Str)
    (currentMonth : Str) : List Expense :=
  let m := effectiveMonth month currentMonth
  expenses.filter (fun e => startsWithStr e.date m)

/-- `exp.date[:7]`, the `YYYY-MM` part used for the monthly breakdown
(expense_manager.py line 135). -/
def monthOf (e : Expense) : Str := e.date.take 7

/-- Lookup in the monthly-statistics association list (a Python dict
with insertion order). -/
def lookupM (l : List (Str × ℚ × Nat)) (k : Str) : Option (ℚ × Nat) :=
  match l with
  | [] => none
  | p :: ps => if p.1 = k then some p.2 else lookupM ps k

/-- One iteration of the monthly-statistics loop (expense_manager.py
lines 134-139): initialise a missing key at the end of the dict, then
add the amount and bump the count. -/
def updMonthly (acc : List (Str × ℚ × Nat)) (e : Expense) :
    List (Str × ℚ × Nat) :=
  match lookupM acc (monthOf e) with
  | some _ =>
    acc.map (fun p => if p.1 = monthOf e then (p.1, p.2.1 + e.amount, p.2.2 + 1) else p)
  | none => acc ++ [(monthOf e, e.amount, 1)]

/-- Lookup in the category-totals association list. -/
def lookupC (l : List (Str × ℚ)) (k : Str) : Option ℚ :=
  match l with
  | [] => none
  | p :: ps => if p.1 = k then some p.2 else lookupC ps k

/-- One iteration of the category-totals loop (expense_manager.py lines
143-144): `category_totals.get(cat, 0) + amount`. -/
def updCat (acc : List (Str × ℚ)) (e : Expense) : List (Str × ℚ) :=
  match lookupC acc e.category with
  | some _ =>
    acc.map (fun p => if p.1 = e.category then (p.1, p.2 + e.amount) else p)
  | none => acc ++ [(e.category, e.amount)]

/-- The dictionary returned by `get_statistics` on a non-empty
collection (expense_manager.py lines 146-156). -/
structure Stats where
  total : ℚ
  count : Nat
  average : ℚ
  min : ℚ
  max : ℚ
  start_date : Str
  end_date : Str
  monthly_stats : List (Str × ℚ × Nat)
  category_totals : List (Str × ℚ)

/-- `ExpenseManager.get_statistics` (expense_manager.py lines 123-156):
`{}` on an empty collection is modelled as `none`; otherwise Python's
`sum`, `len`, `min`, `max` over the amounts and (lexicographically
ordered) date strings, and the two grouping loops. -/
def get_statistics (expenses : List Expense) : Option Stats :=
  match expenses with
  | [] => none
  | e :: rest =>
    some
      { total := ((e :: rest).map Expense.amount).sum
        count := ((e :: rest).map Expense.amount).length
        average := ((e :: rest).map Expense.amount).sum /
          (((e :: rest).map Expense.amount).length : ℚ)
        min := (rest.map Expense.amount).foldl Min.min e.amount
        max := (rest.map Expense.amount).foldl Max.max e.amount
        start_date := (rest.map Expense.date).foldl Min.min e.date
        end_date := (rest.map Expense.date).foldl Max.max e.date
        monthly_stats := (e :: rest).foldl updMonthly []
        category_totals := (e :: rest).foldl updCat [] }

/-- Sum of the amounts of the expenses whose date falls in month `m`. -/
def msum : List Expense → Str → ℚ
  | [], _ => 0
  | e :: es, m => (if monthOf e = m then e.amount else 0) + msum es m

/-- Number of expenses whose date falls in month `m`. -/
def mcnt : List Expense → Str → Nat
  | [], _ => 0
  | e :: es, m => (if monthOf e = m then 1 else 0) + mcnt es m

/-- Sum of the amounts of the expenses with category `c`. -/
def csum : List Expense → Str → ℚ
  | [], _ => 0
  | e :: es, c => (if e.category = c then e.amount else 0) + csum es c

/-- Number of expenses with category `c`. -/
def ccnt : List Expense → Str → Nat
  | [], _ => 0
  | e :: es, c => (if e.category = c then 1 else 0) + ccnt es c

/-- The shape `YYYY-MM`: four digits, a dash, two digits. -/
def isMonthFormat (m : Str) : Bool :=
  decide (m.length = 7) && (m.take 4).all Char.isDigit &&
    decide ((m.drop 4).take 1 = ['-']) && (m.drop 5).all Char.isDigit

theorem lookupM_map_update (acc : List (Str × ℚ × Nat)) (k : Str)
    (a : ℚ) (m : Str) :
    lookupM (acc.map (fun p => if p.1 = k then (p.1, p.2.1 + a, p.2.2 + 1) else p)) m =
      if m = k then (lookupM acc m).map (fun x => (x.1 + a, x.2 + 1))
      else lookupM acc m := by
  induction acc with
  | nil => simp [lookupM]
  | cons p ps ih =>
    by_cases h1 : p.1 = k
    · by_cases h2 : p.1 = m
      · have hmk : m = k := by rw [← h2, h1]
        simp [lookupM, h1, h2, hmk]
      · have hmk : ¬ k = m := by rw [← h1]; exact h2
        have hmk' : ¬ m = k := fun hc => hmk hc.symm
        simp [lookupM, h1, h2, hmk, hmk', ih]
    · by_cases h2 : p.1 = m
      · have hmk : ¬ m = k := by rw [← h2]; exact h1
        simp [lookupM, h1, h2, hmk]
      · simp [lookupM, h1, h2, ih]

theorem lookupM_append_single (acc : List (Str × ℚ × Nat)) (k : Str)
    (v : ℚ × Nat) (m : Str) :
    lookupM (acc ++ [(k, v)]) m =
      match lookupM acc m with
      | some x => some x
      | none => if k = m then some v else none := by
  induction acc with
  | nil => simp [lookupM]
  | cons p ps ih =>
    by_cases h2 : p.1 = m
    · simp [lookupM, h2]
    · simp [lookupM, h2, ih]

theorem lookupM_updMonthly (acc : List (Str × ℚ × Nat)) (e : Expense) (m : Str) :
    lookupM (updMonthly acc e) m =
      if monthOf e = m then
        match lookupM acc m with
        | some tc => some (tc.1 + e.amount, tc.2 + 1)
        | none => some (e.amount, 1)
      else lookupM acc m := by
  unfold updMonthly
  cases h : lookupM acc (monthOf e) with
  | none =>
    dsimp only
    rw [lookupM_append_single]
    by_cases hm : monthOf e = m
    · subst hm
      rw [h]
    · cases h' : lookupM acc m <;> simp [hm, h']
  | some tc =>
    dsimp only
    rw [lookupM_map_update]
    by_cases hm : monthOf e = m
    · subst hm
      rw [h]
      simp
    · have hmm : ¬ m = monthOf e := fun hc => hm hc.symm
      simp [hm, hmm]

theorem lookupM_foldl (es : List Expense) :
    ∀ (acc : List (Str × ℚ × Nat)) (m : Str),
    lookupM (es.foldl updMonthly acc) m =
      match lookupM acc m with
      | some tc => some (tc.1 + msum es m, tc.2 + mcnt es m)
      | none => if mcnt es m = 0 then none else some (msum es m, mcnt es m) := by
  induction es with
  | nil =>
    intro acc m
    cases h : lookupM acc m <;> simp [msum, mcnt, h]
  | cons e es ih =>
    intro acc m
    rw [List.foldl_cons, ih, lookupM_updMonthly]
    by_cases hm : monthOf e = m
    · cases h : lookupM acc m with
      | none => simp [hm, h, msum, mcnt, add_assoc]
      | some tc => simp [hm, h, msum, mcnt, add_assoc]
    · cases h : lookupM acc m with
      | none => simp [hm, h, msum, mcnt]
      | some tc => simp [hm, h, msum, mcnt]

theorem lookupC_map_update (acc : List (Str × ℚ)) (k : Str) (a : ℚ) (m : Str) :
    lookupC (acc.map (fun p => if p.1 = k then (p.1, p.2 + a) else p)) m =
      if m = k then (lookupC acc m).map (fun x => x + a) else lookupC acc m := by
  induction acc with
  | nil => simp [lookupC]
  | cons p ps ih =>
    by_cases h1 : p.1 = k
    · by_cases h2 : p.1 = m
      · have hmk : m = k := by rw [← h2, h1]
        simp [lookupC, h1, h2, hmk]
      · have hmk : ¬ k = m := by rw [← h1]; exact h2
        have hmk' : ¬ m = k := fun hc => hmk hc.symm
        simp [lookupC, h1, h2, hmk, hmk', ih]
    · by_cases h2 : p.1 = m
      · have hmk : ¬ m = k := by rw [← h2]; exact h1
        simp [lookupC, h1, h2, hmk]
      · simp [lookupC, h1, h2, ih]

theorem lookupC_append_single (acc : List (Str × ℚ)) (k : Str) (v : ℚ) (m : Str) :
    lookupC (acc ++ [(k, v)]) m =
      match lookupC acc m with
      | some x => some x
      | none => if k = m then some v else none := by
  induction acc with
  | nil => simp [lookupC]
  | cons p ps ih =>
    by_cases h2 : p.1 = m
    · simp [lookupC, h2]
    · simp [lookupC, h2, ih]

theorem lookupC_updCat (acc : List (Str × ℚ)) (e : Expense) (m : Str) :
    lookupC (updCat acc e) m =
      if e.category = m then
        match lookupC acc m with
        | some t => some (t + e.amount)
        | none => some e.amount
      else lookupC acc m := by
  unfold updCat
  cases h : lookupC acc e.category with
  | none =>
    dsimp only
    rw [lookupC_append_single]
    by_cases hm : e.category = m
    · subst hm
      rw [h]
    · cases h' : lookupC acc m <;> simp [hm, h']
  | some t =>
    dsimp only
    rw [lookupC_map_update]
    by_cases hm : e.category = m
    · subst hm
      rw [h]
      simp
    · have hmm : ¬ m = e.category := fun hc => hm hc.symm
      simp [hm, hmm]

theorem lookupC_foldl (es : List Expense) :
    ∀ (acc : List (Str × ℚ)) (m : Str),
    lookupC (es.foldl updCat acc) m =
      match lookupC acc m with
      | some t => some (t + csum es m)
      | none => if ccnt es m = 0 then none else some (csum es m) := by
  induction es with
  | nil =>
    intro acc m
    cases h : lookupC acc m <;> simp [csum, ccnt, h]
  | cons e es ih =>
    intro acc m
    rw [List.foldl_cons, ih, lookupC_updCat]
    by_cases hm : e.category = m
    · cases h : lookupC acc m with
      | none => simp [hm, h, csum, ccnt, add_assoc]
      | some t => simp [hm, h, csum, ccnt, add_assoc]
    · cases h : lookupC acc m with
      | none => simp [hm, h, csum, ccnt]
      | some t => simp [hm, h, csum, ccnt]

theorem rhe_intCast (n : ℤ) : rhe (n : ℚ) = n := by
  unfold rhe
  simp [Int.floor_intCast]

theorem round2_idem (q : ℚ) : round2 (round2 q) = round2 q := by
  unfold round2
  have h : ((rhe (q * 100) : ℚ) / 100) * 100 = (rhe (q * 100) : ℚ) := by
    field_simp
  rw [h, rhe_intCast]

theorem rhe_nonneg (q : ℚ) (h : 0 ≤ q) : 0 ≤ rhe q := by
  unfold rhe
  have hf : (0:ℤ) ≤ ⌊q⌋ := Int.floor_nonneg.mpr h
  simp only []
  split
  · exact hf
  · split
    · omega
    · split <;> omega

theorem round2_nonneg (q : ℚ) (h : 0 ≤ q) : 0 ≤ round2 q := by
  unfold round2
  have := rhe_nonneg (q * 100) (by positivity)
  positivity

theorem dropWhile_dropWhile (p : Char → Bool) (l : Str) :
    (l.dropWhile p).dropWhile p = l.dropWhile p := by
  induction l with
  | nil => simp
  | cons a as ih =>
    by_cases h : p a
    · simp [List.dropWhile_cons, h, ih]
    · simp [List.dropWhile_cons, h]

theorem head?_dropWhile_false (p : Char → Bool) (l : Str) (x : Char)
    (h : (l.dropWhile p).head? = some x) : p x = false := by
  induction l with
  | nil => simp at h
  | cons a as ih =>
    by_cases hp : p a
    · rw [List.dropWhile_cons, if_pos hp] at h
      exact ih h
    · rw [List.dropWhile_cons, if_neg hp] at h
      simp at h
      subst h
      simpa using hp

theorem dropWhile_eq_self_of_head? (p : Char → Bool) (l : Str)
    (h : ∀ x, l.head? = some x → p x = false) : l.dropWhile p = l := by
  cases l with
  | nil => rfl
  | cons a as => simp [List.dropWhile_cons, h a rfl]

theorem pyStrip_idem (s : Str) : pyStrip (pyStrip s) = pyStrip s := by
  unfold pyStrip
  set p := pySpace with hp
  set A := s.dropWhile p with hA
  set B := A.reverse.dropWhile p with hB
  have h1 : B.reverse.dropWhile p = B.reverse := by
    apply dropWhile_eq_self_of_head?
    intro x hx
    rw [List.head?_reverse] at hx
    have hBne : B ≠ [] := by
      intro hnil
      rw [hnil] at hx
      simp at hx
    obtain ⟨u, hu⟩ := List.dropWhile_suffix (l := A.reverse) p
    have hlast : A.reverse.getLast? = some x := by
      rw [← hu, List.getLast?_append_of_ne_nil u hBne]
      exact hx
    rw [List.getLast?_reverse] at hlast
    exact head?_dropWhile_false p s x hlast
  rw [h1, List.reverse_reverse, dropWhile_dropWhile]

theorem startsWithStr_iff_take (m : Str) :
    ∀ d : Str, startsWithStr d m = true ↔ d.take m.length = m := by
  induction m with
  | nil => intro d; simp [startsWithStr]
  | cons p ps ih =>
    intro d
    cases d with
    | nil => simp [startsWithStr]
    | cons c cs =>
      simp [startsWithStr, List.take_succ_cons, ih cs, and_comm]

theorem foldl_min_le_init {α : Type} [LinearOrder α] (l : List α) (x : α) :
    l.foldl Min.min x ≤ x := by
  induction l generalizing x with
  | nil => simp
  | cons a as ih => exact le_trans (ih (Min.min x a)) (min_le_left x a)

theorem foldl_min_le_mem {α : Type} [LinearOrder α] (l : List α) (x a : α) (h : a ∈ l) :
    l.foldl Min.min x ≤ a := by
  induction l generalizing x with
  | nil => simp at h
  | cons b bs ih =>
    rcases List.mem_cons.mp h with rfl | h'
    · exact le_trans (foldl_min_le_init bs (Min.min x a)) (min_le_right x a)
    · exact ih (Min.min x b) h'

theorem foldl_min_mem {α : Type} [LinearOrder α] (l : List α) (x : α) :
    l.foldl Min.min x = x ∨ l.foldl Min.min x ∈ l := by
  induction l generalizing x with
  | nil => left; rfl
  | cons a as ih =>
    rw [List.foldl_cons]
    rcases ih (Min.min x a) with h | h
    · rw [h]
      rcases le_total x a with hle | hle
      · left; exact min_eq_left hle
      · right; rw [min_eq_right hle]; exact List.mem_cons_self a as
    · right; exact List.mem_cons_of_mem a h

theorem foldl_max_le_init {α : Type} [LinearOrder α] (l : List α) (x : α) :
    x ≤ l.foldl Max.max x := by
  induction l generalizing x with
  | nil => simp
  | cons a as ih => exact le_trans (le_max_left x a) (ih (Max.max x a))

theorem foldl_max_le_mem {α : Type} [LinearOrder α] (l : List α) (x a : α) (h : a ∈ l) :
    a ≤ l.foldl Max.max x := by
  induction l generalizing x with
  | nil => simp at h
  | cons b bs ih =>
    rcases List.mem_cons.mp h with rfl | h'
    · exact le_trans (le_max_right x a) (foldl_max_le_init bs (Max.max x a))
    · exact ih (Max.max x b) h'

theorem foldl_max_mem {α : Type} [LinearOrder α] (l : List α) (x : α) :
    l.foldl Max.max x = x ∨ l.foldl Max.max x ∈ l := by
  induction l generalizing x with
  | nil => left; rfl
  | cons a as ih =>
    rw [List.foldl_cons]
    rcases ih (Max.max x a) with h | h
    · rw [h]
      rcases le_total x a with hle | hle
      · right; rw [max_eq_right hle]; exact List.mem_cons_self a as
      · left; exact max_eq_left hle
    · right; exact List.mem_cons_of_mem a h

theorem round2_ofNat (n : ℕ) : round2 (n : ℚ) = n := by
  unfold round2
  have h : ((n:ℚ) * 100) = ((n * 100 : ℤ) : ℚ) := by push_cast; ring
  rw [h, rhe_intCast]
  push_cast
  field_simp

theorem round2_five : round2 (5:ℚ) = 5 := by
  have := round2_ofNat 5
  push_cast at this
  exact this

theorem round2_fifty : round2 (50:ℚ) = 50 := by
  have := round2_ofNat 50
  push_cast at this
  exact this

theorem round2_thousandth : round2 (1/1000 : ℚ) = 0 := by
  unfold round2
  have h1 : (1/1000 : ℚ) * 100 = 1/10 := by norm_num
  have h2 : ⌊(1/10 : ℚ)⌋ = 0 := by
    rw [Int.floor_eq_iff]
    norm_num

  unfold rhe
  rw [h1]
  rw [h2]
  norm_num

theorem rowToExpense_expenseToRow (e : Expense) (hv : e.Valid) :
    rowToExpense (expenseToRow e) = some e := by
  obtain ⟨h1, h2, h3, h4, h5⟩ := hv
  simp [rowToExpense, expenseToRow, mkExpense, validate_amount, validate_category,
    validate_date, not_le.mpr h1, h2, h3, h4, h5]

theorem filterMap_saveRows (es : List Expense) (h : ∀ e ∈ es, e.Valid) :
    (es.map expenseToRow).filterMap rowToExpense = es := by
  induction es with
  | nil => rfl
  | cons e es ih =>
    have he : e.Valid := h e (List.mem_cons_self e es)
    have hes : ∀ x ∈ es, x.Valid := fun x hx => h x (List.mem_cons_of_mem e hx)
    rw [List.map_cons, List.filterMap_cons, rowToExpense_expenseToRow e he, ih hes]

/-- C1: saving an N-record collection of valid records and loading it
back reproduces exactly the same records — same amount, category, date
and description, in the same order. -/
theorem save_load_roundtrip (es : List Expense) (h : ∀ e ∈ es, e.Valid) :
    load_expenses (some (saveRows es)) = es := by
  unfold load_expenses saveRows
  exact filterMap_saveRows es h

/-- C1 witness: a concrete two-record collection survives the
save/load round trip. -/
theorem save_load_roundtrip_witness :
    (∀ e ∈ ([⟨5, "Food".data, "2024-03-01".data, "Lunch".data⟩,
             ⟨50, "Transport".data, "2024-03-02".data, "Bus".data⟩] : List Expense),
      e.Valid) ∧
    load_expenses (some (saveRows
      [⟨5, "Food".data, "2024-03-01".data, "Lunch".data⟩,
       ⟨50, "Transport".data, "2024-03-02".data, "Bus".data⟩])) =
      [⟨5, "Food".data, "2024-03-01".data, "Lunch".data⟩,
       ⟨50, "Transport".data, "2024-03-02".data, "Bus".data⟩] := by
  have hv : ∀ e ∈ ([⟨5, "Food".data, "2024-03-01".data, "Lunch".data⟩,
             ⟨50, "Transport".data, "2024-03-02".data, "Bus".data⟩] : List Expense),
      e.Valid := by
    intro e he
    rcases List.mem_cons.mp he with rfl | he
    · exact ⟨by norm_num, round2_five, by decide, by decide, by decide⟩
    rcases List.mem_cons.mp he with rfl | he
    · exact ⟨by norm_num, round2_fifty, by decide, by decide, by decide⟩
    · simp at he
  exact ⟨hv, save_load_roundtrip _ hv⟩

/-- C2: `load_expenses` never raises (it is a total function here): a
row that fails record validation is skipped and loading continues with
the remaining rows, and an unreadable or missing storage medium
(`none`) yields the empty collection. -/
theorem load_skips_bad_row (bad : Row) (rest : List Row)
    (h : rowToExpense bad = none) :
    load_expenses none = [] ∧
    load_expenses (some (bad :: rest)) = load_expenses (some rest) := by
  refine ⟨rfl, ?_⟩
  simp [load_expenses, List.filterMap_cons, h]

/-- C2 witness: a row whose amount field is not numeric is skipped and
the valid row after it is still loaded. -/
theorem load_skips_bad_row_witness :
    rowToExpense ⟨"2024-01-15".data, "Food".data, none, []⟩ = none ∧
    (load_expenses none = [] ∧
     load_expenses (some ([⟨"2024-01-15".data, "Food".data, none, []⟩,
       ⟨"2024-03-01".data, "Food".data, some 5, "Lunch".data⟩])) =
       load_expenses (some [⟨"2024-03-01".data, "Food".data, some 5, "Lunch".data⟩])) :=
  ⟨by decide, load_skips_bad_row _ _ (by decide)⟩

/-- C5: `add_expense` appends the record to the in-memory collection no
matter whether persistence succeeds, and when persistence fails it
returns `false` to the caller. -/
theorem add_expense_appends_and_reports (st : ManagerState) (e : Expense)
    (copyOk writeOk : Bool) :
    (add_expense st e copyOk writeOk).1.expenses = st.expenses ++ [e] ∧
    (add_expense st e copyOk false).2 = false :=
  ⟨rfl, rfl⟩

/-- C8: a failed backup (`create_backup` returned `None`, here because
no live file exists or the copy failed) does not abort the save: when
the write itself succeeds, `save_expenses` still rewrites the full
file and returns success. -/
theorem save_proceeds_without_backup (fs : FS) (es : List Expense) (copyOk : Bool)
    (h : (create_backup fs copyOk).2 = none) :
    (save_expenses fs copyOk true es).2 = true ∧
    (save_expenses fs copyOk true es).1.live = some (saveRows es) := by
  cases hl : fs.live with
  | none => exact ⟨rfl, by simp [save_expenses, create_backup, hl]⟩
  | some content =>
    cases copyOk with
    | false => exact ⟨rfl, by simp [save_expenses, create_backup, hl]⟩
    | true => exact ⟨rfl, by simp [save_expenses, create_backup, hl]⟩

/-- C8 witness: with no live file the backup reports failure and a
successful write still stores the full collection. -/
theorem save_proceeds_without_backup_witness :
    (create_backup ⟨none, []⟩ true).2 = none ∧
    ((save_expenses ⟨none, []⟩ true true []).2 = true ∧
     (save_expenses ⟨none, []⟩ true true []).1.live = some (saveRows [])) :=
  ⟨rfl, save_proceeds_without_backup ⟨none, []⟩ [] true rfl⟩

/-- C9: `clear_all_expenses` leaves the in-memory collection empty
whether or not the subsequent persistence succeeds; its return type is
`ManagerState` alone — unlike `add_expense` it surfaces no
success/failure result, so a persistence failure during clear is not
reported to the caller. -/
theorem clear_empties_in_memory (st : ManagerState) (copyOk writeOk : Bool) :
    (clear_all_expenses st copyOk writeOk).expenses = [] ∧
    (clear_all_expenses st copyOk false).expenses =
      (clear_all_expenses st copyOk true).expenses :=
  ⟨rfl, rfl⟩

/-- C3 counterexample: the input `0.001` is numeric and strictly
positive, so construction succeeds, but the stored amount is
`round(0.001, 2) = 0`, which is not strictly greater than 0 — the
positivity test runs before rounding (expense.py lines 37-40). -/
theorem amount_invariant_cex :
    (0:ℚ) < 1/1000 ∧
    mkExpense (some (1/1000)) ("Food".data) ("2024-01-15".data) [] =
      some ⟨0, "Food".data, "2024-01-15".data, []⟩ ∧
    ¬ (0:ℚ) > 0 := by
  refine ⟨by norm_num, ?_, by norm_num⟩
  have hamt : validate_amount (some (1/1000)) = some 0 := by
    unfold validate_amount
    show (if (1/1000 : ℚ) ≤ 0 then none else some (round2 (1/1000))) = some 0
    rw [if_neg (by norm_num : ¬ (1/1000 : ℚ) ≤ 0), round2_thousandth]
  unfold mkExpense
  rw [hamt]
  rfl

/-- C3 (amended): on any numeric, strictly positive input the
constructed record stores the input rounded to 2 fractional digits,
which is nonnegative but can be zero; any non-numeric or non-positive
amount input makes construction fail. -/
theorem amount_validation_amended (q qnp : ℚ) (cat d desc : Str)
    (hq : 0 < q) (hc : cat ∈ CATEGORIES) (hd : validDate d = true) (hnp : qnp ≤ 0) :
    mkExpense (some q) cat d desc = some ⟨round2 q, cat, d, pyStrip desc⟩ ∧
    0 ≤ round2 q ∧
    mkExpense (some qnp) cat d desc = none ∧
    mkExpense none cat d desc = none := by
  have hamt : validate_amount (some q) = some (round2 q) := by
    unfold validate_amount
    show (if q ≤ 0 then none else some (round2 q)) = some (round2 q)
    rw [if_neg (not_le.mpr hq)]
  have hcat : validate_category cat = some cat := by
    unfold validate_category
    rw [if_pos hc]
  have hdate : validate_date d = some d := by
    unfold validate_date
    rw [if_pos hd]
  refine ⟨by simp [mkExpense, hamt, hcat, hdate],
    round2_nonneg q (le_of_lt hq), ?_, by simp [mkExpense, validate_amount]⟩
  have hamt' : validate_amount (some qnp) = none := by
    unfold validate_amount
    show (if qnp ≤ 0 then none else some (round2 qnp)) = none
    rw [if_pos hnp]
  simp [mkExpense, hamt']

/-- C3 witness: the amended theorem applied at amount 3 (valid) and
amount -1 (rejected). -/
theorem amount_validation_amended_witness :
    (0:ℚ) < 3 ∧ ("Food".data) ∈ CATEGORIES ∧ validDate ("2024-01-15".data) = true ∧
    (-1:ℚ) ≤ 0 ∧
    (mkExpense (some 3) ("Food".data) ("2024-01-15".data) [] =
        some ⟨round2 3, "Food".data, "2024-01-15".data, pyStrip []⟩ ∧
      0 ≤ round2 3 ∧
      mkExpense (some (-1)) ("Food".data) ("2024-01-15".data) [] = none ∧
      mkExpense none ("Food".data) ("2024-01-15".data) [] = none) :=
  ⟨by norm_num, by decide, by decide, by norm_num,
    amount_validation_amended 3 (-1) ("Food".data) ("2024-01-15".data) []
      (by norm_num) (by decide) (by decide) (by norm_num)⟩

/-- C4 counterexample: amount `0.001` is a valid input per the claim
(positive, category in the set, date parses), construction succeeds
with stored amount 0, but reconstructing from the serialized fields
fails, so no field-for-field equal record is produced. -/
theorem record_roundtrip_cex :
    (0:ℚ) < 1/1000 ∧
    mkExpense (some (1/1000)) ("Shopping".data) ("2024-03-01".data) [] =
      some ⟨0, "Shopping".data, "2024-03-01".data, []⟩ ∧
    rowToExpense (expenseToRow ⟨0, "Shopping".data, "2024-03-01".data, []⟩) = none := by
  refine ⟨by norm_num, ?_, ?_⟩
  · have hamt : validate_amount (some (1/1000)) = some 0 := by
      unfold validate_amount
      show (if (1/1000 : ℚ) ≤ 0 then none else some (round2 (1/1000))) = some 0
      rw [if_neg (by norm_num : ¬ (1/1000 : ℚ) ≤ 0), round2_thousandth]
    unfold mkExpense
    rw [hamt]
    rfl
  · have hamt : validate_amount (some (0:ℚ)) = none := by
      unfold validate_amount
      show (if (0:ℚ) ≤ 0 then none else some (round2 0)) = none
      rw [if_pos (by norm_num : (0:ℚ) ≤ 0)]
    unfold rowToExpense expenseToRow mkExpense
    rw [hamt]
    rfl

/-- C4 (amended): for every valid input whose amount still rounds to a
strictly positive value, constructing, serializing and reconstructing
yields a record with identical amount, category, date and description
(amount rounded to 2 decimals). -/
theorem record_roundtrip_amended (q : ℚ) (cat d desc : Str)
    (hq : 0 < q) (hr : 0 < round2 q) (hc : cat ∈ CATEGORIES) (hd : validDate d = true) :
    mkExpense (some q) cat d desc = some ⟨round2 q, cat, d, pyStrip desc⟩ ∧
    rowToExpense (expenseToRow ⟨round2 q, cat, d, pyStrip desc⟩) =
      some ⟨round2 q, cat, d, pyStrip desc⟩ := by
  have hamt : validate_amount (some q) = some (round2 q) := by
    unfold validate_amount
    show (if q ≤ 0 then none else some (round2 q)) = some (round2 q)
    rw [if_neg (not_le.mpr hq)]
  have hcat : validate_category cat = some cat := by
    unfold validate_category
    rw [if_pos hc]
  have hdate : validate_date d = some d := by
    unfold validate_date
    rw [if_pos hd]
  refine ⟨by simp [mkExpense, hamt, hcat, hdate], ?_⟩
  exact rowToExpense_expenseToRow _ ⟨hr, round2_idem q, hc, hd, pyStrip_idem desc⟩

/-- C4 witness: the amended round trip at amount 5, category Food,
date 2024-03-01, description with surrounding whitespace. -/
theorem record_roundtrip_amended_witness :
    (0:ℚ) < 5 ∧ 0 < round2 5 ∧ ("Food".data) ∈ CATEGORIES ∧
    validDate ("2024-03-01".data) = true ∧
    (mkExpense (some 5) ("Food".data) ("2024-03-01".data) ("  Lunch ".data) =
        some ⟨round2 5, "Food".data, "2024-03-01".data, pyStrip ("  Lunch ".data)⟩ ∧
      rowToExpense (expenseToRow
          ⟨round2 5, "Food".data, "2024-03-01".data, pyStrip ("  Lunch ".data)⟩) =
        some ⟨round2 5, "Food".data, "2024-03-01".data, pyStrip ("  Lunch ".data)⟩) :=
  ⟨by norm_num, by rw [round2_five]; norm_num, by decide, by decide,
    record_roundtrip_amended 5 ("Food".data) ("2024-03-01".data) ("  Lunch ".data)
      (by norm_num) (by rw [round2_five]; norm_num) (by decide) (by decide)⟩


/-- C7: for a month argument of the form `YYYY-MM` the monthly selection
returns exactly the records whose date's first 7 characters equal the
month, in collection order; with the argument omitted the current
calendar month (modelled as the `currentMonth` input) is used. -/
theorem monthly_filter_exact (es : List Expense) (m cur : Str)
    (hm : isMonthFormat m = true) :
    get_monthly_expenses es (some m) cur =
      es.filter (fun e => decide (e.date.take 7 = m)) ∧
    get_monthly_expenses es none cur =
      es.filter (fun e => startsWithStr e.date cur) := by
  have hlen : m.length = 7 := by
    unfold isMonthFormat at hm
    simp at hm
    exact hm.1.1.1
  have hne : m ≠ [] := by
    intro h
    rw [h] at hlen
    simp at hlen
  refine ⟨?_, rfl⟩
  unfold get_monthly_expenses effectiveMonth
  show List.filter (fun e => startsWithStr e.date (if m = [] then cur else m)) es = _
  rw [if_neg hne]
  apply List.filter_congr
  intro e _
  rw [Bool.eq_iff_iff, decide_eq_true_eq, startsWithStr_iff_take m e.date, hlen]

/-- C7 witness: records dated 2024-01-15 and 2024-02-01 with month
"2024-01": only the January record is selected. -/
theorem monthly_filter_exact_witness :
    isMonthFormat ("2024-01".data) = true ∧
    (get_monthly_expenses
        [⟨5, "Food".data, "2024-01-15".data, []⟩,
         ⟨7, "Bills".data, "2024-02-01".data, []⟩]
        (some ("2024-01".data)) ("2024-03".data) =
      ([⟨5, "Food".data, "2024-01-15".data, []⟩,
        ⟨7, "Bills".data, "2024-02-01".data, []⟩] : List Expense).filter
          (fun e => decide (e.date.take 7 = "2024-01".data)) ∧
    get_monthly_expenses
        [⟨5, "Food".data, "2024-01-15".data, []⟩,
         ⟨7, "Bills".data, "2024-02-01".data, []⟩]
        none ("2024-03".data) =
      ([⟨5, "Food".data, "2024-01-15".data, []⟩,
        ⟨7, "Bills".data, "2024-02-01".data, []⟩] : List Expense).filter
          (fun e => startsWithStr e.date ("2024-03".data))) :=
  ⟨by decide,
    monthly_filter_exact
      [⟨5, "Food".data, "2024-01-15".data, []⟩,
       ⟨7, "Bills".data, "2024-02-01".data, []⟩]
      ("2024-01".data) ("2024-03".data) (by decide)⟩

/-- No two categories coincide after lowercasing: category matching is
genuinely case-sensitive. -/
theorem categories_lower_inj :
    ∀ a ∈ CATEGORIES, ∀ b ∈ CATEGORIES, lowerStr a = lowerStr b → a = b := by
  decide

/-- C10: a string that differs from a listed category only in letter
case is not itself in `CATEGORIES`, so validation rejects it and
`load_expenses` skips any stored row carrying it. -/
theorem case_variant_category_rejected (s c : Str) (r : Row) (rest : List Row)
    (hc : c ∈ CATEGORIES) (hne : s ≠ c) (hl : lowerStr s = lowerStr c)
    (hr : r.Category = s) :
    validate_category s = none ∧
    load_expenses (some (r :: rest)) = load_expenses (some rest) := by
  have hnotmem : s ∉ CATEGORIES := fun hs =>
    hne (categories_lower_inj s hs c hc hl)
  have hval : validate_category s = none := by
    unfold validate_category
    rw [if_neg hnotmem]
  refine ⟨hval, ?_⟩
  have hrow : rowToExpense r = none := by
    unfold rowToExpense mkExpense
    cases hA : r.Amount with
    | none => rfl
    | some a =>
      by_cases ha : a ≤ 0
      · have : validate_amount (some a) = none := by
          unfold validate_amount
          show (if a ≤ 0 then none else some (round2 a)) = none
          rw [if_pos ha]
        rw [this]
        rfl
      · have h1 : validate_amount (some a) = some (round2 a) := by
          unfold validate_amount
          show (if a ≤ 0 then none else some (round2 a)) = some (round2 a)
          rw [if_neg ha]
        rw [h1, hr]
        simp [hval]
  simp [load_expenses, List.filterMap_cons, hrow]

/-- C10 witness: "food" differs from "Food" only in case; a stored row
with category "food" is skipped by loading. -/
theorem case_variant_category_rejected_witness :
    ("Food".data) ∈ CATEGORIES ∧ ("food".data) ≠ ("Food".data) ∧
    lowerStr ("food".data) = lowerStr ("Food".data) ∧
    (validate_category ("food".data) = none ∧
     load_expenses (some (⟨"2024-01-15".data, "food".data, some 5, []⟩ ::
         [⟨"2024-03-01".data, "Food".data, some 5, "Lunch".data⟩])) =
       load_expenses (some [⟨"2024-03-01".data, "Food".data, some 5, "Lunch".data⟩])) :=
  ⟨by decide, by decide, by decide,
    case_variant_category_rejected ("food".data) ("Food".data)
      ⟨"2024-01-15".data, "food".data, some 5, []⟩
      [⟨"2024-03-01".data, "Food".data, some 5, "Lunch".data⟩]
      (by decide) (by decide) (by decide) rfl⟩

/-- C6: `get_statistics` returns the explicit empty marker (`none`,
Python's `{}`) on an empty collection — no division by zero is ever
evaluated — and on any non-empty collection it returns total = sum of
amounts, count = number of records, average = total / count, the
minimum and maximum amounts, the lexicographically least and greatest
date strings, and per-month {total, count} and per-category total
breakdowns. -/
theorem statistics_characterization (e : Expense) (rest : List Expense) :
    get_statistics [] = none ∧
    ∃ s, get_statistics (e :: rest) = some s ∧
      s.total = ((e :: rest).map Expense.amount).sum ∧
      s.count = (e :: rest).length ∧
      s.average = s.total / (s.count : ℚ) ∧
      s.min ∈ (e :: rest).map Expense.amount ∧
      (∀ a ∈ (e :: rest).map Expense.amount, s.min ≤ a) ∧
      s.max ∈ (e :: rest).map Expense.amount ∧
      (∀ a ∈ (e :: rest).map Expense.amount, a ≤ s.max) ∧
      s.start_date ∈ (e :: rest).map Expense.date ∧
      (∀ d ∈ (e :: rest).map Expense.date, s.start_date ≤ d) ∧
      s.end_date ∈ (e :: rest).map Expense.date ∧
      (∀ d ∈ (e :: rest).map Expense.date, d ≤ s.end_date) ∧
      (∀ m, lookupM s.monthly_stats m =
        if mcnt (e :: rest) m = 0 then none
        else some (msum (e :: rest) m, mcnt (e :: rest) m)) ∧
      (∀ c, lookupC s.category_totals c =
        if ccnt (e :: rest) c = 0 then none else some (csum (e :: rest) c)) := by
  refine ⟨rfl, _, rfl, rfl, by simp [get_statistics], rfl, ?_, ?_, ?_, ?_, ?_, ?_, ?_, ?_, ?_, ?_⟩
  · rcases foldl_min_mem (rest.map Expense.amount) e.amount with h | h
    · rw [List.map_cons, h]
      exact List.mem_cons_self _ _
    · exact List.mem_cons_of_mem _ h
  · intro a ha
    rcases List.mem_cons.mp ha with rfl | ha
    · exact foldl_min_le_init _ _
    · exact foldl_min_le_mem _ _ _ ha
  · rcases foldl_max_mem (rest.map Expense.amount) e.amount with h | h
    · rw [List.map_cons, h]
      exact List.mem_cons_self _ _
    · exact List.mem_cons_of_mem _ h
  · intro a ha
    rcases List.mem_cons.mp ha with rfl | ha
    · exact foldl_max_le_init _ _
    · exact foldl_max_le_mem _ _ _ ha
  · rcases foldl_min_mem (rest.map Expense.date) e.date with h | h
    · rw [List.map_cons, h]
      exact List.mem_cons_self _ _
    · exact List.mem_cons_of_mem _ h
  · intro d hd
    rcases List.mem_cons.mp hd with rfl | hd
    · exact foldl_min_le_init _ _
    · exact foldl_min_le_mem _ _ _ hd
  · rcases foldl_max_mem (rest.map Expense.date) e.date with h | h
    · rw [List.map_cons, h]
      exact List.mem_cons_self _ _
    · exact List.mem_cons_of_mem _ h
  · intro d hd
    rcases List.mem_cons.mp hd with rfl | hd
    · exact foldl_max_le_init _ _
    · exact foldl_max_le_mem _ _ _ hd
  · intro m
    show lookupM ((e :: rest).foldl updMonthly []) m = _
    rw [lookupM_foldl]
    rfl
  · intro c
    show lookupC ((e :: rest).foldl updCat []) c = _
    rw [lookupC_foldl]
    rfl
